import Mathlib

/-!
# DW1000Time: the 40-bit wrap-around timestamp of the DW1000 driver

A shallow embedding of `src/lib/arduino-dw1000-master/DW1000Time.cpp`.

* `long long int _timestamp` is an `Int`; the results of `+=`, `-=`, `*=` are reduced
  to the signed 64-bit range by `toInt64` (two's-complement wrap-around).
* `byte` is `Fin 256`; a `byte data[]` argument is a buffer `Nat → byte` indexed from
  the pointer that was passed.
* Methods are functions from the receiver (and the arguments) to the receiver after the call.
* Operations that C++ leaves undefined (division by zero, a conversion out of range, a
  write past an array) yield `Exec.undefined`.
* A `float` is the rational it denotes (`toFloat` rounds to binary32); `FloatVal` adds the
  infinities and NaN where an operand may be any `float`.
* `Serial` is the text written so far.
* The header `DW1000Time.h` is not part of the sources; the constants it defines are
  modelled from the specification and marked as such.
-/

namespace DW1000

/-! ## Constants of the missing header -/

/-- Modelled from the spec: the macro `LEN_STAMP` of the missing header `DW1000Time.h`,
"fixed encoded width in bytes (5 bytes = 40 bits)". -/
def LEN_STAMP : Nat := 5

/-- Modelled from the spec: the macro `TIME_OVERFLOW` of the missing header `DW1000Time.h`,
"the modulus at which the hardware counter wraps (2^40 ticks)". -/
def TIME_OVERFLOW : Int := 1099511627776

/-! ## Machine types -/

/-- The Arduino type `byte` (`uint8_t`). -/
abbrev byte := Fin 256

/-- Conversion of an integer to `byte`, the cast `(byte)x`: reduction modulo 256. -/
def toByte (x : Int) : byte := ⟨(x % 256).toNat, by omega⟩

/-- Reduction of an integer to the range of `long long int` (two's complement, 64 bits). -/
def toInt64 (x : Int) : Int := (x + 9223372036854775808) % 18446744073709551616 - 9223372036854775808

/-- The values a `long long int` can hold. -/
def IsInt64 (x : Int) : Prop := -9223372036854775808 ≤ x ∧ x < 9223372036854775808

instance (x : Int) : Decidable (IsInt64 x) :=
  inferInstanceAs (Decidable (_ ∧ _))

/-- Reduction of an integer to the range of `uint64_t`. -/
def toUInt64 (x : Int) : Int := x % 18446744073709551616

/-- What executing a piece of the program yields: a value; or an error condition that the
program itself defines and reports (the sources contain none: no method returns a status
and nothing is thrown); or nothing the language defines (undefined behaviour of C++, such
as an integer division by zero). -/
inductive Exec (α : Type) where
  | value : α → Exec α
  | raised : Nat → Exec α
  | undefined : Exec α
  deriving DecidableEq

/-- Continue with the value of an execution, if it has one. -/
def Exec.map {α β : Type} (f : α → β) : Exec α → Exec β
  | Exec.value a => Exec.value (f a)
  | Exec.raised c => Exec.raised c
  | Exec.undefined => Exec.undefined

/-! ## Single-precision arithmetic

A finite value of type `float` is the rational number it denotes; an operation on floats is
the exact operation followed by `toFloat`. Infinities and NaN are not represented. -/

/-- Rounding of a rational to the nearest integer, ties to the even one. -/
def roundHalfEven (q : ℚ) : Int :=
  if q - ⌊q⌋ < 1 / 2 then ⌊q⌋
  else if 1 / 2 < q - ⌊q⌋ then ⌊q⌋ + 1
  else if ⌊q⌋ % 2 = 0 then ⌊q⌋ else ⌊q⌋ + 1

/-- Rounding of a rational to type `float` (IEEE-754 binary32, round to nearest, ties to
even): 24 significant bits, the unit in the last place never below `2^-149`. A result of
magnitude `2^128` or more stands for an overflow of the format. -/
def toFloat (q : ℚ) : ℚ :=
  if q = 0 then 0
  else roundHalfEven (q / (2 : ℚ) ^ (max (Int.log 2 |q|) (-126) - 23))
    * (2 : ℚ) ^ (max (Int.log 2 |q|) (-126) - 23)

/-- Truncation toward zero. -/
def truncate (q : ℚ) : Int := if 0 ≤ q then ⌊q⌋ else ⌈q⌉

/-- The conversion `(long long int)f` of a floating-point value: truncation toward zero;
undefined when the truncated value is not a `long long int`. -/
def castInt64 (q : ℚ) : Exec Int :=
  if IsInt64 (truncate q) then Exec.value (truncate q) else Exec.undefined

/-- Modelled from the spec: the macro `TIME_RES_INV` of the missing header `DW1000Time.h`,
the ticks per microsecond of the 499.2 MHz x 128 clock, 63897.6, as a `float` constant. -/
def TIME_RES_INV : ℚ := toFloat (638976 / 10)

/-- Modelled from the spec: the macro `DISTANCE_OF_RADIO` of the missing header
`DW1000Time.h`, the metres of radio propagation per tick, "speed of light x tick duration"
with the tick duration `1/(499.2 MHz x 128)` seconds, as a `float` constant. -/
def DISTANCE_OF_RADIO : ℚ := toFloat (299792458 / (499200000 * 128))

/-- Rounding of a rational to IEEE-754 binary64 (round to nearest, ties to even): 53
significant bits. -/
def toDouble (q : ℚ) : ℚ :=
  if q = 0 then 0
  else roundHalfEven (q / (2 : ℚ) ^ (max (Int.log 2 |q|) (-1022) - 52))
    * (2 : ℚ) ^ (max (Int.log 2 |q|) (-1022) - 52)

/-- The library function `fmod(x, y)` for finite `x` and `y ≠ 0`: `x - y * trunc(x / y)`,
which is exact and has the sign of `x`. -/
def fmod (x y : ℚ) : ℚ := x - y * truncate (x / y)

/-- A value of type `float`, infinities and NaN included. The signs of zero and of infinity
are not kept: they do not change what a conversion to an integer yields. -/
inductive FloatVal where
  | finite : ℚ → FloatVal
  | infinite : FloatVal
  | nan : FloatVal
  deriving DecidableEq

/-- The `float` result of an operation whose exact value is `q`: `q` rounded, or infinity
when the rounded value is beyond the largest finite `float`. -/
def FloatVal.round (q : ℚ) : FloatVal :=
  if |toFloat q| < 2 ^ 128 then FloatVal.finite (toFloat q) else FloatVal.infinite

/-- The product of two `float` values. -/
def FloatVal.mul : FloatVal → FloatVal → FloatVal
  | FloatVal.finite x, FloatVal.finite y => FloatVal.round (x * y)
  | FloatVal.finite x, FloatVal.infinite => if x = 0 then FloatVal.nan else FloatVal.infinite
  | FloatVal.infinite, FloatVal.finite y => if y = 0 then FloatVal.nan else FloatVal.infinite
  | FloatVal.infinite, FloatVal.infinite => FloatVal.infinite
  | FloatVal.nan, _ => FloatVal.nan
  | _, FloatVal.nan => FloatVal.nan

/-- The quotient of two `float` values. -/
def FloatVal.div : FloatVal → FloatVal → FloatVal
  | FloatVal.finite x, FloatVal.finite y =>
    if y = 0 then (if x = 0 then FloatVal.nan else FloatVal.infinite) else FloatVal.round (x / y)
  | FloatVal.finite _, FloatVal.infinite => FloatVal.finite 0
  | FloatVal.infinite, FloatVal.finite _ => FloatVal.infinite
  | FloatVal.infinite, FloatVal.infinite => FloatVal.nan
  | FloatVal.nan, _ => FloatVal.nan
  | _, FloatVal.nan => FloatVal.nan

/-- The conversion `(float)z` of a `long long int`. -/
def FloatVal.ofInt64 (z : Int) : FloatVal := FloatVal.round (z : ℚ)

/-- The conversion `(long long int)f` of a `float`: undefined for infinities and NaN. -/
def FloatVal.toInt64 : FloatVal → Exec Int
  | FloatVal.finite q => castInt64 q
  | FloatVal.infinite => Exec.undefined
  | FloatVal.nan => Exec.undefined

/-- The library call `memset(data, v, n)`: the first `n` bytes of the buffer become `v`. -/
def memset (data : Nat → byte) (v : byte) (n : Nat) : Nat → byte :=
  fun i => if i < n then v else data i

/-! ## The serial port

`Serial` belongs to the Arduino core. Its state here is the text written so far. -/

/-- The call `Serial.print(char c)`: writes the character. -/
def Serial.print (out : List Char) (c : Char) : List Char := out ++ [c]

/-- The call `Serial.println()`: writes the line break, carriage return and line feed. -/
def Serial.println (out : List Char) : List Char := out ++ [Char.ofNat 13, Char.ofNat 10]

/-! ## The class -/

/-- The class `DW1000Time`: one field, the tick counter. -/
structure DW1000Time where
  /-- The field `long long int _timestamp`. -/
  _timestamp : Int
  deriving DecidableEq

namespace DW1000Time

/-- The default constructor `DW1000Time()`: `_timestamp = 0`. -/
def new : DW1000Time := ⟨0⟩

/-- The accessor `long long int getTimestamp() const`. -/
def getTimestamp (this : DW1000Time) : Int := this._timestamp

/-- The method `setTimestamp(byte data[])`: starting from `_timestamp = 0`, for
`i = 0 .. LEN_STAMP-1` do `_timestamp |= ((long long int)data[i] << (i*8))`.
The shifted byte is below `2^40`, so no step leaves the 64-bit range. -/
def setTimestampBytes (_this : DW1000Time) (data : Nat → byte) : DW1000Time :=
  (List.range LEN_STAMP).foldl
    (fun t i => ⟨Int.lor t._timestamp ((((data i).val : Nat) : Int) <<< (((i * 8 : Nat)) : Int))⟩)
    ⟨0⟩

/-- The constructor `DW1000Time(byte data[])`, which calls `setTimestamp(data)`. -/
def newBytes (data : Nat → byte) : DW1000Time := setTimestampBytes ⟨0⟩ data

/-- The method `setTimestamp(const DW1000Time& copy)`: `_timestamp = copy.getTimestamp()`. -/
def setTimestampCopy (_this copy : DW1000Time) : DW1000Time := ⟨copy.getTimestamp⟩

/-- The copy constructor `DW1000Time(const DW1000Time& copy)`, which calls `setTimestamp(copy)`. -/
def newCopy (copy : DW1000Time) : DW1000Time := setTimestampCopy ⟨0⟩ copy

/-- The method `getTimestamp(byte data[]) const`: `memset(data, 0, LEN_STAMP)`, then for
`i = 0 .. LEN_STAMP-1` do `data[i] = (byte)((_timestamp >> (i*8)) & 0xFF)`.
The result is the buffer after the call. The right shift of a negative value is the
arithmetic shift, `Int.shiftRight`. -/
def getTimestampBytes (this : DW1000Time) (data : Nat → byte) : Nat → byte :=
  (List.range LEN_STAMP).foldl
    (fun d i => Function.update d i (toByte (Int.land (this._timestamp >>> (i * 8)) 0xFF)))
    (memset data 0 LEN_STAMP)

/-- The method `wrap()`: `if(_timestamp < 0) _timestamp += TIME_OVERFLOW;`. -/
def wrap (this : DW1000Time) : DW1000Time :=
  if this._timestamp < 0 then ⟨toInt64 (this._timestamp + TIME_OVERFLOW)⟩ else this

/-- The method `setTime(float timeUs)`: `_timestamp = (long long int)(timeUs*TIME_RES_INV)`. -/
def setTime (_this : DW1000Time) (timeUs : ℚ) : Exec DW1000Time :=
  (castInt64 (toFloat (timeUs * TIME_RES_INV))).map (fun v => ⟨v⟩)

/-- The constructor `DW1000Time(float timeUs)`, which calls `setTime(timeUs)`. -/
def newMicros (timeUs : ℚ) : Exec DW1000Time := setTime ⟨0⟩ timeUs

/-- The operator `+=`: `_timestamp += add.getTimestamp()`. -/
def opAddAssign (this add : DW1000Time) : DW1000Time :=
  ⟨toInt64 (this._timestamp + add.getTimestamp)⟩

/-- The operator `+`: `DW1000Time(*this) += add`. -/
def opAdd (this add : DW1000Time) : DW1000Time := opAddAssign (newCopy this) add

/-- The operator `-=`: `_timestamp -= sub.getTimestamp()`. -/
def opSubAssign (this sub : DW1000Time) : DW1000Time :=
  ⟨toInt64 (this._timestamp - sub.getTimestamp)⟩

/-- The operator `-`: `DW1000Time(*this) -= sub`. -/
def opSub (this sub : DW1000Time) : DW1000Time := opSubAssign (newCopy this) sub

/-- The operator `/=` with a `DW1000Time` divisor: `_timestamp /= factor.getTimestamp()`.
There is no test of the divisor. C++ leaves the division undefined when the divisor is zero
and when the quotient is not representable (`LLONG_MIN / -1`); otherwise the quotient is
truncated toward zero. -/
def opDivAssign (this factor : DW1000Time) : Exec DW1000Time :=
  if factor.getTimestamp = 0 then Exec.undefined
  else if this._timestamp = -9223372036854775808 ∧ factor.getTimestamp = -1 then Exec.undefined
  else Exec.value ⟨Int.tdiv this._timestamp factor.getTimestamp⟩

/-- The operator `/` with a `DW1000Time` divisor: `DW1000Time(*this) /= factor`. -/
def opDiv (this factor : DW1000Time) : Exec DW1000Time := opDivAssign (newCopy this) factor

/-- The operator `==`: `_timestamp == cmp.getTimestamp()`. -/
def opEq (this cmp : DW1000Time) : Bool := decide (this._timestamp = cmp.getTimestamp)

/-- The method `setTimestamp(int value)`: `_timestamp = value`. -/
def setTimestampInt (_this : DW1000Time) (value : Int) : DW1000Time := ⟨value⟩

/-- The operator `*=` with a `DW1000Time` factor: `_timestamp *= factor.getTimestamp()`. -/
def opMulAssign (this factor : DW1000Time) : DW1000Time :=
  ⟨toInt64 (this._timestamp * factor.getTimestamp)⟩

/-- The operator `*` with a `DW1000Time` factor: `DW1000Time(*this) *= factor`. -/
def opMul (this factor : DW1000Time) : DW1000Time := opMulAssign (newCopy this) factor

/-- The operator `*=` with a `float` factor: `float tsValue = (float)_timestamp*factor;`
`_timestamp = (long long int)tsValue;`. -/
def opMulAssignFloat (this : DW1000Time) (factor : FloatVal) : Exec DW1000Time :=
  (FloatVal.toInt64 (FloatVal.mul (FloatVal.ofInt64 this._timestamp) factor)).map
    (fun v => ⟨v⟩)

/-- The operator `*` with a `float` factor: `DW1000Time(*this) *= factor`. -/
def opMulFloat (this : DW1000Time) (factor : FloatVal) : Exec DW1000Time :=
  opMulAssignFloat (newCopy this) factor

/-- The operator `/=` with a `float` factor: `_timestamp *= (1.0f/factor);`. This is the
built-in `*=` on the `long long int` field with a `float` operand: the field is converted
to `float`, multiplied, and the product converted back to `long long int`. -/
def opDivAssignFloat (this : DW1000Time) (factor : FloatVal) : Exec DW1000Time :=
  (FloatVal.toInt64 (FloatVal.mul (FloatVal.ofInt64 this._timestamp)
    (FloatVal.div (FloatVal.finite 1) factor))).map (fun v => ⟨v⟩)

/-- The operator `/` with a `float` factor: `DW1000Time(*this) /= factor`. -/
def opDivFloat (this : DW1000Time) (factor : FloatVal) : Exec DW1000Time :=
  opDivAssignFloat (newCopy this) factor

/-- The method `getAsMeters() const`:
`return fmod((float)_timestamp, TIME_OVERFLOW)*DISTANCE_OF_RADIO;`. The function `fmod`
takes and returns `double` and the product is a `double`; `dbl` is the rounding to the
type `double` of the platform (`toFloat` on AVR, where `double` has 32 bits, `toDouble`
where it has 64). The result is converted to `float`. -/
def getAsMeters (dbl : ℚ → ℚ) (this : DW1000Time) : ℚ :=
  toFloat (dbl (fmod (dbl (toFloat this._timestamp)) (dbl TIME_OVERFLOW)
    * dbl DISTANCE_OF_RADIO))

/-- The first loop of `print`: `while(number > 0)` do `uint64_t q = number/10;`
`buf[i++] = number-q*10; number = q;`. The list `buf` is `buf[0..i-1]` and `room` counts
the bytes left in `unsigned char buf[64]`; a write past the end of the array is undefined. -/
def printExtract : Nat → Int → List byte → Exec (List byte)
  | 0, number, buf => if 0 < number then Exec.undefined else Exec.value buf
  | room + 1, number, buf =>
    if 0 < number then
      printExtract room (toInt64 (toUInt64 (Int.tdiv number 10)))
        (buf ++ [toByte (toUInt64 (toUInt64 number - toUInt64 (toUInt64 (Int.tdiv number 10) * 10)))])
    else Exec.value buf

/-- The character `(char)(d < 10 ? '0'+d : 'A'+d-10)` printed for the buffer entry `d`. -/
def printChar (d : byte) : Char :=
  Char.ofNat ((if d.val < 10 then '0'.toNat + d.val else 'A'.toNat + d.val - 10) % 256)

/-- The second loop of `print`: `for(; i > 0; i--) Serial.print(...buf[i-1]...)`. -/
def printEmit (buf : List byte) : Nat → List Char → List Char
  | 0, out => out
  | i + 1, out => printEmit buf i (Serial.print out (printChar (buf.getD i 0)))

/-- The method `print()`: for `number == 0` it prints `'0'` and returns; otherwise it
extracts the digits, prints them from the last to the first, and calls `Serial.println()`. -/
def print (this : DW1000Time) (out : List Char) : Exec (List Char) :=
  if this._timestamp = 0 then Exec.value (Serial.print out '0')
  else (printExtract 64 this._timestamp []).map
    (fun buf => Serial.println (printEmit buf buf.length out))

end DW1000Time

/-! ## Objects in memory

The operators take their operands by reference. `Memory` gives the object at each address;
a binary operator builds its result in a temporary at an address of its own. -/

/-- The `DW1000Time` objects in memory, by address. -/
abbrev Memory := Nat → DW1000Time

/-- The statement `x += y` on the objects at the addresses `this` and `add`. -/
def Memory.opAddAssign (m : Memory) (this add : Nat) : Memory :=
  Function.update m this (DW1000Time.opAddAssign (m this) (m add))

/-- The expression `x + y`: the temporary `DW1000Time(*this)` is built at `tmp`, then
`+= add` is applied to it. -/
def Memory.opAdd (m : Memory) (this add tmp : Nat) : Memory :=
  Memory.opAddAssign (Function.update m tmp (DW1000Time.newCopy (m this))) tmp add

/-- The statement `x -= y` on the objects at the addresses `this` and `sub`. -/
def Memory.opSubAssign (m : Memory) (this sub : Nat) : Memory :=
  Function.update m this (DW1000Time.opSubAssign (m this) (m sub))

/-- The expression `x - y`: the temporary `DW1000Time(*this)` is built at `tmp`, then
`-= sub` is applied to it. -/
def Memory.opSub (m : Memory) (this sub tmp : Nat) : Memory :=
  Memory.opSubAssign (Function.update m tmp (DW1000Time.newCopy (m this))) tmp sub

/-- The operator `=` on the objects at the addresses `this` and `assign`:
`if(this == &assign) return *this;` and otherwise `_timestamp = assign.getTimestamp()`. -/
def Memory.opAssign (m : Memory) (this assign : Nat) : Memory :=
  if this = assign then m
  else Function.update m this ⟨(m assign).getTimestamp⟩

/-! ## Reference values of the specification -/

/-- Following the words of the specification: `div(a, factor)` is `scale(a, 1/factor)`,
the scaling operator applied to the reciprocal of the factor. -/
def specDivByScale (a : DW1000Time) (factor : FloatVal) : Exec DW1000Time :=
  DW1000Time.opMulFloat a (FloatVal.div (FloatVal.finite 1) factor)

/-- The little-endian value of the first five bytes of a buffer. -/
def leValue (b : Nat → byte) : Nat :=
  (b 0).val + (b 1).val * 256 + (b 2).val * 65536 + (b 3).val * 16777216
    + (b 4).val * 4294967296

open DW1000Time


/-! ## Bit-level lemmas -/

theorem lor_natCast (m n : Nat) : Int.lor (m : Int) (n : Int) = ((m ||| n : Nat) : Int) := rfl

theorem land_natCast (m n : Nat) : Int.land (m : Int) (n : Int) = ((m &&& n : Nat) : Int) := rfl

/-- Masking with `0xFF` is reduction modulo 256, also for negative numbers. -/
theorem land_255 (y : Int) : Int.land y 0xFF = y % 256 := by
  cases y with
  | ofNat m =>
    have h := Nat.and_pow_two_sub_one_eq_mod m 8
    norm_num at h
    show Int.land (m : Int) ((255 : Nat) : Int) = _
    rw [land_natCast, h]
    norm_cast
  | negSucc m =>
    show ((Nat.ldiff 255 m : Nat) : Int) = _
    have h : Nat.ldiff 255 m = 255 - m % 256 := by
      apply Nat.eq_of_testBit_eq
      intro j
      have h1 : 255 - m % 256 = 2 ^ 8 - (m % 2 ^ 8 + 1) := by norm_num; omega
      have h2 : (255 : Nat) = 2 ^ 8 - 1 := by norm_num
      rw [Nat.testBit_ldiff, h1, Nat.testBit_two_pow_sub_succ (Nat.mod_lt _ (by norm_num)),
        Nat.testBit_mod_two_pow, h2, Nat.testBit_two_pow_sub_one]
      by_cases hj : j < 8 <;> simp [hj]
    rw [h]
    have : m % 256 < 256 := Nat.mod_lt _ (by norm_num)
    rw [Int.negSucc_eq]
    omega


theorem leValue_lt (b : Nat → byte) : leValue b < 1099511627776 := by
  unfold leValue
  have h0 := (b 0).isLt
  have h1 := (b 1).isLt
  have h2 := (b 2).isLt
  have h3 := (b 3).isLt
  have h4 := (b 4).isLt
  omega

theorem or_shift_eq_add (acc x k : Nat) (h : acc < 2 ^ k) :
    acc ||| x * 2 ^ k = acc + x * 2 ^ k := by
  rw [Nat.lor_comm, Nat.mul_comm x, ← Nat.mul_add_lt_is_or h, Nat.add_comm]

theorem shiftLeft_natCast (x k : Nat) : ((x : Nat) : Int) <<< ((k : Nat) : Int) = ((x * 2 ^ k : Nat) : Int) := by
  rw [Int.shiftLeft_eq_mul_pow]; norm_cast

theorem setTimestampBytes_eq (t : DW1000Time) (b : Nat → byte) :
    (setTimestampBytes t b)._timestamp = (leValue b : Int) := by
  have h0 := (b 0).isLt
  have h1 := (b 1).isLt
  have h2 := (b 2).isLt
  have h3 := (b 3).isLt
  have h4 := (b 4).isLt
  simp only [setTimestampBytes, LEN_STAMP, List.range_succ, List.range_zero, List.nil_append,
    List.cons_append, List.foldl_cons, List.foldl_nil, shiftLeft_natCast]
  have z : (0 : Int) = ((0 : Nat) : Int) := rfl
  rw [z]
  simp only [lor_natCast]
  congr 1
  have e0 : 0 ||| (b 0).val * 2 ^ (0 * 8) = (b 0).val := by simp
  have e1 : (b 0).val ||| (b 1).val * 2 ^ (1 * 8) = (b 0).val + (b 1).val * 256 :=
    or_shift_eq_add _ _ _ (by omega)
  have e2 : ((b 0).val + (b 1).val * 256) ||| (b 2).val * 2 ^ (2 * 8)
      = (b 0).val + (b 1).val * 256 + (b 2).val * 65536 :=
    or_shift_eq_add _ _ _ (by omega)
  have e3 : ((b 0).val + (b 1).val * 256 + (b 2).val * 65536) ||| (b 3).val * 2 ^ (3 * 8)
      = (b 0).val + (b 1).val * 256 + (b 2).val * 65536 + (b 3).val * 16777216 :=
    or_shift_eq_add _ _ _ (by omega)
  have e4 : ((b 0).val + (b 1).val * 256 + (b 2).val * 65536 + (b 3).val * 16777216)
      ||| (b 4).val * 2 ^ (4 * 8)
      = (b 0).val + (b 1).val * 256 + (b 2).val * 65536 + (b 3).val * 16777216
        + (b 4).val * 4294967296 :=
    or_shift_eq_add _ _ _ (by omega)
  rw [e0, e1, e2, e3, e4]
  rfl


/-- Byte `i` of the buffer after `getTimestamp(byte data[])`. -/
theorem getTimestampBytes_apply (t : DW1000Time) (buf : Nat → byte) (i : Nat) :
    getTimestampBytes t buf i
      = if i < 5 then toByte (Int.land (t._timestamp >>> (i * 8)) 0xFF) else buf i := by
  simp only [getTimestampBytes, LEN_STAMP, List.range_succ, List.range_zero, List.nil_append,
    List.cons_append, List.foldl_cons, List.foldl_nil, memset]
  by_cases h4 : i = 4
  · subst h4; simp
  by_cases h3 : i = 3
  · subst h3; simp
  by_cases h2 : i = 2
  · subst h2; simp
  by_cases h1 : i = 1
  · subst h1; simp
  by_cases h0 : i = 0
  · subst h0; simp
  have hi : ¬ i < 5 := by omega
  simp [Function.update, memset, h0, h1, h2, h3, h4, hi]

theorem toByte_land_val (x : Int) (k : Nat) :
    (((toByte (Int.land (x >>> k) 0xFF)).val : Nat) : Int) = (x / 2 ^ k) % 256 := by
  rw [land_255, Int.shiftRight_eq_div_pow]
  simp only [toByte]
  have h1 := Int.emod_nonneg (x / ((2 ^ k : Nat) : Int) % 256) (by norm_num : (256 : Int) ≠ 0)
  rw [Int.emod_emod_of_dvd _ (dvd_refl _)] at *
  rw [Int.toNat_of_nonneg h1]
  norm_cast

/-- Bit `j` of an arithmetic right shift. -/
theorem testBit_shiftRight (x : Int) (k j : Nat) :
    Int.testBit (x >>> k) j = Int.testBit x (k + j) := by
  cases x with
  | ofNat m =>
    show Nat.testBit (m >>> k) j = Nat.testBit m (k + j)
    rw [Nat.testBit_shiftRight]
  | negSucc m =>
    show (!Nat.testBit (m >>> k) j) = !Nat.testBit m (k + j)
    rw [Nat.testBit_shiftRight]


/-- The five bytes written by `getTimestamp(byte data[])` pack the low 40 bits of the ticks. -/
theorem leValue_getTimestampBytes (x : Int) (buf : Nat → byte) :
    ((leValue (getTimestampBytes ⟨x⟩ buf) : Nat) : Int) = x % 1099511627776 := by
  have b0 := toByte_land_val x (0 * 8)
  have b1 := toByte_land_val x (1 * 8)
  have b2 := toByte_land_val x (2 * 8)
  have b3 := toByte_land_val x (3 * 8)
  have b4 := toByte_land_val x (4 * 8)
  norm_num at b0 b1 b2 b3 b4
  unfold leValue
  simp only [getTimestampBytes_apply]
  norm_num
  rw [b0, b1, b2, b3, b4]
  omega

theorem byte_val_eq_land (x : Int) (k : Nat) :
    (((toByte (Int.land (x >>> k) 0xFF)).val : Nat) : Int) = Int.land (x >>> k) 0xFF := by
  rw [toByte_land_val, land_255, Int.shiftRight_eq_div_pow]
  norm_cast

theorem testBit_255 (j : Nat) (hj : j < 8) : Int.testBit 0xFF j = true := by
  show Nat.testBit 255 j = true
  have h2 : (255 : Nat) = 2 ^ 8 - 1 := by norm_num
  rw [h2, Nat.testBit_two_pow_sub_one]
  simp [hj]

/-- Bit `j` of byte `i` written by `getTimestamp(byte data[])` is bit `8i+j` of the ticks. -/
theorem testBit_getTimestampBytes (x : Int) (buf : Nat → byte) (i j : Nat) (hi : i < 5)
    (hj : j < 8) :
    Nat.testBit (getTimestampBytes ⟨x⟩ buf i).val j = Int.testBit x (8 * i + j) := by
  rw [getTimestampBytes_apply, if_pos hi]
  show Int.testBit (((toByte (Int.land (x >>> (i * 8)) 0xFF)).val : Nat) : Int) j = _
  rw [byte_val_eq_land, Int.testBit_land, testBit_shiftRight, testBit_255 j hj, Nat.mul_comm]
  simp

/-! ## Lemmas on `toInt64` and on single-precision rounding -/

theorem toInt64_of_isInt64 (x : Int) (h : IsInt64 x) : toInt64 x = x := by
  unfold IsInt64 at h
  unfold toInt64
  omega

theorem log2_eq (q : ℚ) (e : Int) (h0 : 0 < q) (h1 : (2 : ℚ) ^ e ≤ q)
    (h2 : q < (2 : ℚ) ^ (e + 1)) : Int.log 2 q = e := by
  have a := (Int.zpow_le_iff_le_log (by norm_num : 1 < 2) h0).1 (by exact_mod_cast h1)
  have b := (Int.lt_zpow_iff_log_lt (by norm_num : 1 < 2) h0).1 (by exact_mod_cast h2)
  omega

theorem roundHalfEven_eq_of_lt (q : ℚ) (z : Int) (h1 : (z : ℚ) ≤ q) (h2 : q < z + 1 / 2) :
    roundHalfEven q = z := by
  have hf : ⌊q⌋ = z := Int.floor_eq_iff.2 ⟨h1, by linarith⟩
  unfold roundHalfEven
  rw [hf, if_pos (by linarith)]

theorem roundHalfEven_eq_of_gt (q : ℚ) (z : Int) (h1 : (z : ℚ) - 1 / 2 < q) (h2 : q < z) :
    roundHalfEven q = z := by
  have hf : ⌊q⌋ = z - 1 := Int.floor_eq_iff.2 ⟨by push_cast; linarith, by push_cast; linarith⟩
  unfold roundHalfEven
  rw [hf, if_neg (by push_cast; linarith), if_pos (by push_cast; linarith)]
  ring

/-- Evaluation of `toFloat` in the normal range, from the binary exponent and the rounded
significand. -/
theorem toFloat_eq (q : ℚ) (e m : Int) (h0 : q ≠ 0) (h1 : (2 : ℚ) ^ e ≤ |q|)
    (h2 : |q| < (2 : ℚ) ^ (e + 1)) (he : -126 ≤ e)
    (hm : roundHalfEven (q / (2 : ℚ) ^ (e - 23)) = m) :
    toFloat q = m * (2 : ℚ) ^ (e - 23) := by
  have hl : Int.log 2 |q| = e := log2_eq _ _ (abs_pos.2 h0) h1 h2
  unfold toFloat
  rw [if_neg h0, hl, max_eq_left he, hm]

theorem truncate_eq_of_nonneg (q : ℚ) (z : Int) (h1 : (z : ℚ) ≤ q) (h2 : q < z + 1)
    (h0 : 0 ≤ q) : truncate q = z := by
  unfold truncate
  rw [if_pos h0]
  exact Int.floor_eq_iff.2 ⟨h1, h2⟩

/-- The `float` nearest to 63897.6 is 63897.6015625. -/
theorem TIME_RES_INV_eq : TIME_RES_INV = 8178893 / 128 := by
  unfold TIME_RES_INV
  rw [toFloat_eq (638976 / 10) 15 16357786 (by norm_num) (by norm_num [abs_of_pos])
    (by norm_num [abs_of_pos]) (by norm_num)
    (by apply roundHalfEven_eq_of_gt <;> norm_num)]
  norm_num

/-- The product `1.0f * TIME_RES_INV` is exact. -/
theorem toFloat_one_mul_TIME_RES_INV : toFloat (1 * TIME_RES_INV) = 8178893 / 128 := by
  rw [TIME_RES_INV_eq]
  rw [toFloat_eq (1 * (8178893 / 128)) 15 16357786 (by norm_num) (by norm_num [abs_of_pos])
    (by norm_num [abs_of_pos]) (by norm_num)
    (by apply roundHalfEven_eq_of_lt <;> norm_num)]
  norm_num

theorem setTime_one (t : DW1000Time) : setTime t 1 = Exec.value ⟨63897⟩ := by
  have ht : truncate (8178893 / 128) = 63897 := by
    apply truncate_eq_of_nonneg <;> norm_num
  unfold setTime castInt64
  rw [toFloat_one_mul_TIME_RES_INV, ht, if_pos (by unfold IsInt64; norm_num)]
  rfl

theorem round_ticks_per_micro : round ((1 : ℚ) * (638976 / 10)) = 63898 := by
  rw [round_eq]
  exact Int.floor_eq_iff.2 ⟨by norm_num, by norm_num⟩

theorem truncate_ticks_per_micro : truncate ((1 : ℚ) * (638976 / 10)) = 63897 := by
  apply truncate_eq_of_nonneg <;> norm_num

/-! ## The wire format: five little-endian bytes -/

/-- C1: for every tick value `t` with `0 ≤ t < 2^40`, decoding the five bytes that
`getTimestamp(byte[])` writes for an object holding `t`, by the constructor from bytes or by
`setTimestamp(byte[])` on any object, gives an object whose `getTimestamp()` is `t`. -/
theorem C1_roundtrip_ticks_bytes_ticks (t : Int) (h0 : 0 ≤ t) (h1 : t < 2 ^ 40)
    (buf : Nat → byte) (r : DW1000Time) :
    (newBytes (getTimestampBytes ⟨t⟩ buf)).getTimestamp = t
      ∧ (setTimestampBytes r (getTimestampBytes ⟨t⟩ buf)).getTimestamp = t := by
  have h := leValue_getTimestampBytes t buf
  have hm : t % 1099511627776 = t := Int.emod_eq_of_lt h0 (by norm_num at h1; exact h1)
  unfold newBytes getTimestamp
  rw [setTimestampBytes_eq, setTimestampBytes_eq, h, hm]
  exact ⟨rfl, rfl⟩

/-- Witness of C1 at `t = 0x0123456789`, a buffer of `0xFF` bytes and a receiver holding 77. -/
theorem C1_roundtrip_ticks_bytes_ticks_witness :
    (newBytes (getTimestampBytes ⟨4886718345⟩ (fun _ => 255))).getTimestamp = 4886718345
      ∧ (setTimestampBytes ⟨77⟩ (getTimestampBytes ⟨4886718345⟩ (fun _ => 255))).getTimestamp
          = 4886718345 :=
  C1_roundtrip_ticks_bytes_ticks 4886718345 (by decide) (by decide) (fun _ => 255) ⟨77⟩

/-- C2: for every ticks value, negative ones and ones of `2^40` or more included,
`getTimestamp(byte[])` changes exactly the first `LEN_STAMP = 5` bytes of the buffer; bit
`j` of byte `i` is bit `8i+j` of the ticks (in two's complement); the five bytes are the
little-endian packing of `ticks mod 2^40`, and decoding them gives `ticks mod 2^40`. -/
theorem C2_encode_width_and_truncation (x : Int) (buf : Nat → byte) :
    LEN_STAMP = 5
      ∧ (∀ i, LEN_STAMP ≤ i → getTimestampBytes ⟨x⟩ buf i = buf i)
      ∧ (∀ i j, i < LEN_STAMP → j < 8 →
          Nat.testBit (getTimestampBytes ⟨x⟩ buf i).val j = Int.testBit x (8 * i + j))
      ∧ (∑ i ∈ Finset.range LEN_STAMP, ((getTimestampBytes ⟨x⟩ buf i).val : Int) * 256 ^ i)
          = x % 2 ^ 40
      ∧ (newBytes (getTimestampBytes ⟨x⟩ buf)).getTimestamp = x % 2 ^ 40 := by
  have h := leValue_getTimestampBytes x buf
  refine ⟨rfl, ?_, ?_, ?_, ?_⟩
  · intro i hi
    have : ¬ i < 5 := by unfold LEN_STAMP at hi; omega
    rw [getTimestampBytes_apply, if_neg this]
  · intro i j hi hj
    exact testBit_getTimestampBytes x buf i j hi hj
  · rw [show ((2 : Int) ^ 40) = 1099511627776 by norm_num, ← h]
    unfold leValue LEN_STAMP
    simp only [Finset.sum_range_succ, Finset.sum_range_zero]
    push_cast
    norm_num
  · unfold newBytes getTimestamp
    rw [setTimestampBytes_eq, h]
    norm_num

/-- C3: for every five bytes `b[0..4]`, the object decoded from them has
`getTimestamp()` equal to the sum of `b[i] * 256^i`, a value in `[0, TIME_OVERFLOW)` with
`TIME_OVERFLOW = 2^40`; decoding is total and its result is never negative. -/
theorem C3_decode_little_endian_in_range (b : Nat → byte) (r : DW1000Time) :
    (newBytes b).getTimestamp = ∑ i ∈ Finset.range LEN_STAMP, ((b i).val : Int) * 256 ^ i
      ∧ (setTimestampBytes r b).getTimestamp = (newBytes b).getTimestamp
      ∧ 0 ≤ (newBytes b).getTimestamp
      ∧ (newBytes b).getTimestamp < TIME_OVERFLOW
      ∧ TIME_OVERFLOW = 2 ^ 40 := by
  have hlt := leValue_lt b
  unfold newBytes getTimestamp
  rw [setTimestampBytes_eq, setTimestampBytes_eq]
  refine ⟨?_, rfl, ?_, ?_, ?_⟩
  · unfold leValue LEN_STAMP
    simp only [Finset.sum_range_succ, Finset.sum_range_zero]
    push_cast
    norm_num
  · exact Int.ofNat_nonneg _
  · unfold TIME_OVERFLOW
    exact_mod_cast hlt
  · unfold TIME_OVERFLOW
    norm_num

/-- C4: for every five bytes `b`, encoding the object decoded from `b` writes the same
five bytes in the same order, and nothing beyond them. -/
theorem C4_roundtrip_bytes_ticks_bytes (b buf : Nat → byte) :
    (∀ i, i < LEN_STAMP → getTimestampBytes (newBytes b) buf i = b i)
      ∧ (∀ i, LEN_STAMP ≤ i → getTimestampBytes (newBytes b) buf i = buf i) := by
  have h0 := (b 0).isLt
  have h1 := (b 1).isLt
  have h2 := (b 2).isLt
  have h3 := (b 3).isLt
  have h4 := (b 4).isLt
  have hv : (newBytes b)._timestamp = (leValue b : Int) := setTimestampBytes_eq _ b
  constructor
  · intro i hi
    unfold LEN_STAMP at hi
    rw [getTimestampBytes_apply, if_pos hi]
    apply Fin.ext
    have key := toByte_land_val (newBytes b)._timestamp (i * 8)
    generalize (toByte (Int.land ((newBytes b)._timestamp >>> (i * 8)) 0xFF)).val = w at key ⊢
    rw [hv] at key
    unfold leValue at key
    push_cast at key
    interval_cases i <;> norm_num at key <;> omega
  · intro i hi
    have : ¬ i < 5 := by unfold LEN_STAMP at hi; omega
    rw [getTimestampBytes_apply, if_neg this]

/-- The method `wrap` on a 64-bit value: the addition does not overflow. -/
theorem wrap_mk (t : Int) (h : IsInt64 t) :
    wrap ⟨t⟩ = ⟨if t < 0 then t + 1099511627776 else t⟩ := by
  have ht : -9223372036854775808 ≤ t ∧ t < 9223372036854775808 := h
  show (if t < 0 then (⟨toInt64 (t + TIME_OVERFLOW)⟩ : DW1000Time) else ⟨t⟩) = _
  by_cases hneg : t < 0
  · rw [if_pos hneg, if_pos hneg]
    unfold TIME_OVERFLOW
    rw [toInt64_of_isInt64 _ (by unfold IsInt64; omega)]
  · rw [if_neg hneg, if_neg hneg]

/-! ## Normalisation -/

/-- C5, counterexample: for the 64-bit value `x = -2^41`, `wrap` gives `-2^40` and a second
`wrap` gives `0`, so `wrap(wrap(x)) ≠ wrap(x)`. -/
theorem C5_wrap_not_idempotent_below :
    ¬ (IsInt64 (-2199023255552) →
        wrap (wrap ⟨-2199023255552⟩) = wrap ⟨-2199023255552⟩) := by
  decide

/-- C5, amended: for a 64-bit tick value `x`, `wrap(wrap(x)) = wrap(x)` holds exactly when
`x ≥ -TIME_OVERFLOW`; in particular it holds for all `x ≥ -2^40`. -/
theorem C5_wrap_idempotent_iff (x : DW1000Time) (h : IsInt64 x._timestamp) :
    wrap (wrap x) = wrap x ↔ -TIME_OVERFLOW ≤ x._timestamp := by
  obtain ⟨t⟩ := x
  have ht : -9223372036854775808 ≤ t ∧ t < 9223372036854775808 := h
  rw [wrap_mk t h]
  by_cases hneg : t < 0
  · rw [if_pos hneg, wrap_mk _ (by unfold IsInt64; omega), DW1000Time.mk.injEq]
    show _ ↔ -1099511627776 ≤ t
    split_ifs <;> omega
  · rw [if_neg hneg, wrap_mk t h, if_neg hneg]
    show _ ↔ -1099511627776 ≤ t
    simp only [true_iff]
    omega

/-- Witness of C5 (amended) at `x = -5`. -/
theorem C5_wrap_idempotent_iff_witness :
    wrap (wrap ⟨-5⟩) = wrap ⟨-5⟩ ↔ -TIME_OVERFLOW ≤ (⟨-5⟩ : DW1000Time)._timestamp :=
  C5_wrap_idempotent_iff ⟨-5⟩ (by decide)

/-- C6: for every `x` with `-2^40 ≤ x.ticks < 0`, `wrap(x).ticks = x.ticks + 2^40`, a value
in `[0, 2^40)`, where `TIME_OVERFLOW = 2^40`; for `x.ticks = -5` it is `2^40 - 5`. -/
theorem C6_wrap_correct (x : DW1000Time) (h1 : -2 ^ 40 ≤ x._timestamp)
    (h2 : x._timestamp < 0) :
    (wrap x).getTimestamp = x._timestamp + 2 ^ 40
      ∧ 0 ≤ (wrap x).getTimestamp
      ∧ (wrap x).getTimestamp < 2 ^ 40
      ∧ TIME_OVERFLOW = 2 ^ 40
      ∧ (wrap ⟨-5⟩).getTimestamp = 2 ^ 40 - 5 := by
  obtain ⟨t⟩ := x
  norm_num at h1
  simp only [wrap, getTimestamp, TIME_OVERFLOW, toInt64] at *
  rw [if_pos h2]
  norm_num
  omega

/-- Witness of C6 at `x.ticks = -2^40`, the lower end of the range. -/
theorem C6_wrap_correct_witness :
    (wrap ⟨-1099511627776⟩).getTimestamp = (⟨-1099511627776⟩ : DW1000Time)._timestamp + 2 ^ 40
      ∧ 0 ≤ (wrap ⟨-1099511627776⟩).getTimestamp
      ∧ (wrap ⟨-1099511627776⟩).getTimestamp < 2 ^ 40
      ∧ TIME_OVERFLOW = 2 ^ 40
      ∧ (wrap ⟨-5⟩).getTimestamp = 2 ^ 40 - 5 :=
  C6_wrap_correct ⟨-1099511627776⟩ (by decide) (by decide)

/-- C7: for every `x` with `x.ticks ≥ 0`, also when `x.ticks ≥ TIME_OVERFLOW`, `wrap`
returns `x` unchanged. -/
theorem C7_wrap_nonneg_unchanged (x : DW1000Time) (h : 0 ≤ x._timestamp) :
    wrap x = x ∧ (wrap x).getTimestamp = x._timestamp := by
  have hw : wrap x = x := by
    unfold wrap
    rw [if_neg (by omega)]
  rw [hw]
  exact ⟨rfl, rfl⟩

/-- Witness of C7 at `x.ticks = 2^40 + 7`, a value above `TIME_OVERFLOW`. -/
theorem C7_wrap_nonneg_unchanged_witness :
    TIME_OVERFLOW ≤ (⟨1099511627783⟩ : DW1000Time)._timestamp
      ∧ wrap ⟨1099511627783⟩ = ⟨1099511627783⟩
      ∧ (wrap ⟨1099511627783⟩).getTimestamp = (⟨1099511627783⟩ : DW1000Time)._timestamp :=
  ⟨by decide, C7_wrap_nonneg_unchanged ⟨1099511627783⟩ (by decide)⟩

/-! ## Arithmetic -/

theorem toInt64_add_sub (a b : Int) (h : IsInt64 a) : toInt64 (toInt64 (a + b) - b) = a := by
  have ha : -9223372036854775808 ≤ a ∧ a < 9223372036854775808 := h
  unfold toInt64
  omega

/-- C8: for all `a` and `b` (64-bit tick values, overflow wrapping modulo `2^64`),
`(a + b) - b` has exactly the ticks of `a` and compares equal to `a`; and with the operands
taken by reference from memory (they may be the same object), the temporaries of `+` and `-`
at addresses of their own, neither `a` nor `b` is modified. -/
theorem C8_add_sub_inverse (m : Memory) (a b t1 t2 : Nat) (hA : IsInt64 (m a)._timestamp)
    (h1a : t1 ≠ a) (h1b : t1 ≠ b) (h2a : t2 ≠ a) (h2b : t2 ≠ b) :
    opSub (opAdd (m a) (m b)) (m b) = m a
      ∧ opEq (opSub (opAdd (m a) (m b)) (m b)) (m a) = true
      ∧ Memory.opAdd m a b t1 a = m a
      ∧ Memory.opAdd m a b t1 b = m b
      ∧ Memory.opAdd m a b t1 t1 = opAdd (m a) (m b)
      ∧ Memory.opSub (Memory.opAdd m a b t1) t1 b t2 a = m a
      ∧ Memory.opSub (Memory.opAdd m a b t1) t1 b t2 b = m b
      ∧ Memory.opSub (Memory.opAdd m a b t1) t1 b t2 t2 = m a := by
  have key : opSub (opAdd (m a) (m b)) (m b) = m a := by
    cases hma : m a with
    | mk x =>
      rw [hma] at hA
      simp only [opSub, opAdd, opSubAssign, opAddAssign, newCopy, setTimestampCopy, getTimestamp]
      rw [toInt64_add_sub x _ hA]
  have e1a : Memory.opAdd m a b t1 a = m a := by
    simp [Memory.opAdd, Memory.opAddAssign, Function.update, Ne.symm h1a]
  have e1b : Memory.opAdd m a b t1 b = m b := by
    simp [Memory.opAdd, Memory.opAddAssign, Function.update, Ne.symm h1b]
  have e1t : Memory.opAdd m a b t1 t1 = opAdd (m a) (m b) := by
    simp [Memory.opAdd, Memory.opAddAssign, Function.update, Ne.symm h1b, opAdd]
  have e2a : Memory.opSub (Memory.opAdd m a b t1) t1 b t2 a = m a := by
    simp only [Memory.opSub, Memory.opSubAssign, Function.update, Ne.symm h2a, Ne.symm h2b,
      eq_rec_constant, dite_eq_ite, if_false, e1a]
  have e2b : Memory.opSub (Memory.opAdd m a b t1) t1 b t2 b = m b := by
    simp only [Memory.opSub, Memory.opSubAssign, Function.update, Ne.symm h2a, Ne.symm h2b,
      eq_rec_constant, dite_eq_ite, if_false, e1b]
  have e2t : Memory.opSub (Memory.opAdd m a b t1) t1 b t2 t2 = m a := by
    simp only [Memory.opSub, Memory.opSubAssign, Function.update, Ne.symm h2b,
      eq_rec_constant, dite_eq_ite, if_true, if_false, e1b, e1t]
    exact key
  refine ⟨key, ?_, e1a, e1b, e1t, e2a, e2b, e2t⟩
  rw [key]
  simp [opEq, getTimestamp]

/-- Witness of C8: `a` holds `LLONG_MAX` at address 0 and `b` holds 5 at address 1, so the
sum wraps around; the temporaries are at addresses 2 and 3. -/
theorem C8_add_sub_inverse_witness :
    opSub (opAdd ⟨9223372036854775807⟩ ⟨5⟩) ⟨5⟩ = (⟨9223372036854775807⟩ : DW1000Time)
      ∧ opAdd ⟨9223372036854775807⟩ ⟨5⟩ = (⟨-9223372036854775804⟩ : DW1000Time) :=
  ⟨(C8_add_sub_inverse (fun i => if i = 0 then ⟨9223372036854775807⟩ else ⟨5⟩) 0 1 2 3
      (by decide) (by decide) (by decide) (by decide) (by decide)).1,
    by decide⟩

/-- C9, counterexample: dividing the object holding 1 by the default-constructed object
(zero ticks) raises no error condition: the division is executed unguarded and C++ leaves
it undefined. -/
theorem C9_div_by_zero_raises_nothing :
    ¬ ∃ code, opDiv ⟨1⟩ DW1000Time.new = Exec.raised code := by
  rintro ⟨code, h⟩
  have hu : opDiv ⟨1⟩ DW1000Time.new = Exec.undefined := by decide
  rw [hu] at h
  exact Exec.noConfusion h

/-- C9, amended: for every `a`, dividing by a `b` with zero ticks is an unguarded integer
division by zero: the program defines no error condition for it and no tick value results
(undefined behaviour), for `/` as for `/=`. -/
theorem C9_div_by_zero_undefined (a b : DW1000Time) (hb : b.getTimestamp = 0) :
    opDiv a b = Exec.undefined
      ∧ opDivAssign a b = Exec.undefined
      ∧ (∀ code, opDiv a b ≠ Exec.raised code)
      ∧ (∀ v, opDiv a b ≠ Exec.value v) := by
  have h1 : opDivAssign a b = Exec.undefined := by
    unfold opDivAssign
    rw [if_pos hb]
  have h2 : opDiv a b = Exec.undefined := by
    unfold opDiv opDivAssign
    rw [if_pos hb]
  refine ⟨h2, h1, ?_, ?_⟩
  · intro code hc
    rw [h2] at hc
    exact Exec.noConfusion hc
  · intro v hv
    rw [h2] at hv
    exact Exec.noConfusion hv

/-- Witness of C9 (amended): 7 ticks divided by the default-constructed object. -/
theorem C9_div_by_zero_undefined_witness :
    opDiv ⟨7⟩ DW1000Time.new = Exec.undefined
      ∧ opDivAssign ⟨7⟩ DW1000Time.new = Exec.undefined
      ∧ (∀ code, opDiv ⟨7⟩ DW1000Time.new ≠ Exec.raised code)
      ∧ (∀ v, opDiv ⟨7⟩ DW1000Time.new ≠ Exec.value v) :=
  C9_div_by_zero_undefined ⟨7⟩ DW1000Time.new rfl

/-! ## Conversion from microseconds -/

/-- C10, counterexample: `setTime(1.0)` does not give the nearest-integer tick count of one
microsecond, `round(1 * 63897.6) = 63898`. -/
theorem C10_setTime_one_not_nearest :
    ¬ (setTime DW1000Time.new 1 = Exec.value ⟨round ((1 : ℚ) * (638976 / 10))⟩) := by
  rw [setTime_one, round_ticks_per_micro]
  decide

/-- C10, amended: `setTime(1.0)`, on any object and in the constructor from microseconds,
gives the tick count of one microsecond truncated toward zero, `63897`. -/
theorem C10_setTime_one_truncated (t : DW1000Time) :
    setTime t 1 = Exec.value ⟨truncate ((1 : ℚ) * (638976 / 10))⟩
      ∧ newMicros 1 = Exec.value ⟨63897⟩
      ∧ truncate ((1 : ℚ) * (638976 / 10)) = 63897 := by
  refine ⟨?_, ?_, truncate_ticks_per_micro⟩
  · rw [setTime_one, truncate_ticks_per_micro]
  · exact setTime_one _

/-! ## Further arithmetic and assignment -/

/-- C12: for every 64-bit `a`, `a + zero == a`, where `zero` is the default-constructed
object or the object set to `0`, and `==` is the exact comparison of ticks. -/
theorem C12_add_zero_identity (a : DW1000Time) (h : IsInt64 a._timestamp) :
    opEq (opAdd a DW1000Time.new) a = true
      ∧ opAdd a DW1000Time.new = a
      ∧ opEq (opAdd a (setTimestampInt DW1000Time.new 0)) a = true
      ∧ opAddAssign a DW1000Time.new = a := by
  obtain ⟨x⟩ := a
  have hx : toInt64 (x + 0) = x := by
    rw [Int.add_zero]
    exact toInt64_of_isInt64 x h
  have e : opAdd ⟨x⟩ DW1000Time.new = ⟨x⟩ := by
    simp only [opAdd, opAddAssign, newCopy, setTimestampCopy, getTimestamp, DW1000Time.new, hx]
  have e2 : opAddAssign ⟨x⟩ DW1000Time.new = ⟨x⟩ := by
    simp only [opAddAssign, getTimestamp, DW1000Time.new, hx]
  refine ⟨?_, e, ?_, e2⟩
  · rw [e]
    simp [opEq, getTimestamp]
  · have e3 : opAdd ⟨x⟩ (setTimestampInt DW1000Time.new 0) = ⟨x⟩ := e
    rw [e3]
    simp [opEq, getTimestamp]

/-- Witness of C12 at `a.ticks = LLONG_MIN`. -/
theorem C12_add_zero_identity_witness :
    opEq (opAdd ⟨-9223372036854775808⟩ DW1000Time.new) ⟨-9223372036854775808⟩ = true
      ∧ opAdd ⟨-9223372036854775808⟩ DW1000Time.new = ⟨-9223372036854775808⟩
      ∧ opEq (opAdd ⟨-9223372036854775808⟩ (setTimestampInt DW1000Time.new 0))
          ⟨-9223372036854775808⟩ = true
      ∧ opAddAssign ⟨-9223372036854775808⟩ DW1000Time.new = ⟨-9223372036854775808⟩ :=
  C12_add_zero_identity ⟨-9223372036854775808⟩ (by decide)

/-- C14: for all objects `a` and `b` in memory, after `a = b` the ticks of `a` are those
of `b`, and `b` and every other object are unchanged; after `a = a` the memory is what it
was, so `a.getTimestamp()` is the value it had before. -/
theorem C14_assignment_copies_and_self_is_noop (m : Memory) (a b : Nat) :
    (Memory.opAssign m a b a).getTimestamp = (m b).getTimestamp
      ∧ Memory.opAssign m a b b = m b
      ∧ (∀ c, c ≠ a → Memory.opAssign m a b c = m c)
      ∧ Memory.opAssign m a a = m
      ∧ (Memory.opAssign m a a a).getTimestamp = (m a).getTimestamp := by
  have hself : Memory.opAssign m a a = m := by
    unfold Memory.opAssign
    rw [if_pos rfl]
  refine ⟨?_, ?_, ?_, hself, by rw [hself]⟩
  · by_cases hab : a = b
    · subst hab
      rw [hself]
    · unfold Memory.opAssign
      rw [if_neg hab, Function.update_same]
      rfl
  · by_cases hab : a = b
    · subst hab
      rw [hself]
    · unfold Memory.opAssign
      rw [if_neg hab, Function.update_noteq (Ne.symm hab)]
  · intro c hc
    by_cases hab : a = b
    · subst hab
      rw [hself]
    · unfold Memory.opAssign
      rw [if_neg hab, Function.update_noteq hc]

/-- C15: for all `a` and `b` with ticks in `[0, 2^40)`, `wrap(a - b)` has the ticks
`(a.ticks - b.ticks) mod 2^40` (the non-negative remainder), a value in `[0, 2^40)`. -/
theorem C15_wrapped_difference (a b : DW1000Time)
    (ha0 : 0 ≤ a._timestamp) (ha1 : a._timestamp < 2 ^ 40)
    (hb0 : 0 ≤ b._timestamp) (hb1 : b._timestamp < 2 ^ 40) :
    (wrap (opSub a b)).getTimestamp = (a._timestamp - b._timestamp) % 2 ^ 40
      ∧ 0 ≤ (wrap (opSub a b)).getTimestamp
      ∧ (wrap (opSub a b)).getTimestamp < 2 ^ 40 := by
  obtain ⟨x⟩ := a
  obtain ⟨y⟩ := b
  have hx0 : 0 ≤ x := ha0
  have hx1 : x < 1099511627776 := by
    have h : x < 2 ^ 40 := ha1
    norm_num at h
    exact h
  have hy0 : 0 ≤ y := hb0
  have hy1 : y < 1099511627776 := by
    have h : y < 2 ^ 40 := hb1
    norm_num at h
    exact h
  have hs : opSub ⟨x⟩ ⟨y⟩ = ⟨x - y⟩ := by
    simp only [opSub, opSubAssign, newCopy, setTimestampCopy, getTimestamp]
    rw [toInt64_of_isInt64 _ (by unfold IsInt64; omega)]
  rw [hs, wrap_mk _ (by unfold IsInt64; omega)]
  simp only [getTimestamp]
  norm_num
  refine ⟨?_, ?_, ?_⟩ <;> split_ifs <;> omega

/-- Witness of C15: the counter overflowed between `b = 2^40 - 3` and `a = 5`. -/
theorem C15_wrapped_difference_witness :
    (wrap (opSub ⟨5⟩ ⟨1099511627773⟩)).getTimestamp
        = ((⟨5⟩ : DW1000Time)._timestamp - (⟨1099511627773⟩ : DW1000Time)._timestamp) % 2 ^ 40
      ∧ 0 ≤ (wrap (opSub ⟨5⟩ ⟨1099511627773⟩)).getTimestamp
      ∧ (wrap (opSub ⟨5⟩ ⟨1099511627773⟩)).getTimestamp < 2 ^ 40 :=
  C15_wrapped_difference ⟨5⟩ ⟨1099511627773⟩ (by decide) (by decide) (by decide) (by decide)

/-- The remainder of the truncating division is non-negative and below the divisor's
magnitude when the dividend is non-negative. -/
theorem tmod_nonneg_case (x y : Int) (hx : 0 ≤ x) (hy : y ≠ 0) :
    0 ≤ Int.tmod x y ∧ Int.tmod x y < |y| := by
  refine ⟨Int.tmod_nonneg y hx, ?_⟩
  rcases lt_or_gt_of_ne hy with h | h
  · have := Int.tmod_lt_of_pos x (show 0 < -y by omega)
    rw [Int.tmod_neg] at this
    rw [abs_of_neg h]
    exact this
  · rw [abs_of_pos h]
    exact Int.tmod_lt_of_pos x h

theorem neg_tmod_eq (x y : Int) : Int.tmod (-x) y = -Int.tmod x y := by
  rw [Int.tmod_def, Int.tmod_def, Int.neg_tdiv]
  ring

/-- The remainder of the truncating division: smaller than the divisor in magnitude, and
zero or of the sign of the dividend. -/
theorem tmod_sign (x y : Int) (hy : y ≠ 0) :
    |Int.tmod x y| < |y|
      ∧ (Int.tmod x y = 0 ∨ (0 < Int.tmod x y ∧ 0 < x) ∨ (Int.tmod x y < 0 ∧ x < 0)) := by
  rcases lt_trichotomy x 0 with hx | hx | hx
  · have h := tmod_nonneg_case (-x) y (by omega) hy
    rw [neg_tmod_eq] at h
    constructor
    · rw [abs_lt]
      have := abs_nonneg y
      constructor <;> omega
    · omega
  · subst hx
    rw [Int.zero_tmod]
    exact ⟨by simpa using hy, Or.inl rfl⟩
  · have h := tmod_nonneg_case x y (by omega) hy
    constructor
    · rw [abs_lt]
      have := abs_nonneg y
      constructor <;> omega
    · omega

/-- C16: for all `a` and `b` with `b.ticks ≠ 0`, the case `LLONG_MIN / -1` excluded, `a / b`
yields a quotient `q` with `a.ticks = q * b.ticks + r`, `|r| < |b.ticks|`, and `r` zero or
of the sign of `a.ticks`: integer division truncating toward zero. -/
theorem C16_div_truncates_toward_zero (a b : DW1000Time) (hb : b._timestamp ≠ 0)
    (hmin : ¬ (a._timestamp = -9223372036854775808 ∧ b._timestamp = -1)) :
    ∃ q r : Int, opDiv a b = Exec.value ⟨q⟩
      ∧ a._timestamp = q * b._timestamp + r
      ∧ |r| < |b._timestamp|
      ∧ (r = 0 ∨ (0 < r ∧ 0 < a._timestamp) ∨ (r < 0 ∧ a._timestamp < 0)) := by
  obtain ⟨x⟩ := a
  obtain ⟨y⟩ := b
  have hy : y ≠ 0 := hb
  have hm : ¬ (x = -9223372036854775808 ∧ y = -1) := hmin
  refine ⟨Int.tdiv x y, Int.tmod x y, ?_, ?_, ?_, ?_⟩
  · simp only [opDiv, opDivAssign, newCopy, setTimestampCopy, getTimestamp]
    rw [if_neg hy, if_neg hm]
  · have := Int.tdiv_add_tmod x y
    show x = Int.tdiv x y * y + Int.tmod x y
    rw [Int.mul_comm]
    exact this.symm
  · exact (tmod_sign x y hy).1
  · exact (tmod_sign x y hy).2

/-- Witness of C16 at `-7 / 2`: the quotient is `-3` (not `-4`), the remainder `-1`. -/
theorem C16_div_truncates_toward_zero_witness :
    opDiv ⟨-7⟩ ⟨2⟩ = Exec.value ⟨-3⟩
      ∧ ∃ q r : Int, opDiv ⟨-7⟩ ⟨2⟩ = Exec.value ⟨q⟩
        ∧ (⟨-7⟩ : DW1000Time)._timestamp = q * (⟨2⟩ : DW1000Time)._timestamp + r
        ∧ |r| < |(⟨2⟩ : DW1000Time)._timestamp|
        ∧ (r = 0 ∨ (0 < r ∧ 0 < (⟨-7⟩ : DW1000Time)._timestamp)
            ∨ (r < 0 ∧ (⟨-7⟩ : DW1000Time)._timestamp < 0)) :=
  ⟨by decide, C16_div_truncates_toward_zero ⟨-7⟩ ⟨2⟩ (by decide) (by decide)⟩

/-- C19: for every tick value `x` (64-bit or not) and every buffer, encoding `wrap(x)`
leaves the buffer exactly as encoding `x` does: the five bytes are the same. -/
theorem C19_wrap_keeps_encoding (x : DW1000Time) (buf : Nat → byte) :
    getTimestampBytes (wrap x) buf = getTimestampBytes x buf
      ∧ (∀ i, i < LEN_STAMP → getTimestampBytes (wrap x) buf i = getTimestampBytes x buf i) := by
  have key : getTimestampBytes (wrap x) buf = getTimestampBytes x buf := by
    funext i
    rw [getTimestampBytes_apply, getTimestampBytes_apply]
    by_cases hi : i < 5
    · rw [if_pos hi, if_pos hi]
      apply Fin.ext
      have k1 := toByte_land_val (wrap x)._timestamp (i * 8)
      have k2 := toByte_land_val x._timestamp (i * 8)
      generalize (toByte (Int.land ((wrap x)._timestamp >>> (i * 8)) 0xFF)).val = w1 at k1 ⊢
      generalize (toByte (Int.land (x._timestamp >>> (i * 8)) 0xFF)).val = w2 at k2 ⊢
      have hw : (wrap x)._timestamp = x._timestamp
          ∨ (wrap x)._timestamp = toInt64 (x._timestamp + 1099511627776) := by
        unfold wrap
        by_cases hneg : x._timestamp < 0
        · rw [if_pos hneg]
          exact Or.inr rfl
        · rw [if_neg hneg]
          exact Or.inl rfl
      generalize (wrap x)._timestamp = v at k1 hw
      generalize x._timestamp = u at k2 hw
      unfold toInt64 at hw
      interval_cases i <;> norm_num at k1 k2 <;> omega
    · rw [if_neg hi, if_neg hi]
  exact ⟨key, fun i _ => by rw [key]⟩

/-- C20: for all 64-bit `a` and `b` with `b.ticks ≠ 0` and `a.ticks * b.ticks` representable
in 64 bits, `(a * b) / b` is `a`; and there are 64-bit `a`, `b` with `b.ticks ≠ 0` whose
product overflows, for which `(a * b) / b` is not `a` (`a = 2^62`, `b = 4`: the product
wraps to `0`). -/
theorem C20_mul_then_div (a b : DW1000Time) (ha : IsInt64 a._timestamp)
    (hb : b._timestamp ≠ 0) (hab : IsInt64 (a._timestamp * b._timestamp)) :
    opDiv (opMul a b) b = Exec.value a
      ∧ (opDiv (opMul a b) b).map (fun r => opEq r a) = Exec.value true
      ∧ ∃ c d : DW1000Time, IsInt64 c._timestamp ∧ IsInt64 d._timestamp ∧ d._timestamp ≠ 0
          ∧ ¬ IsInt64 (c._timestamp * d._timestamp)
          ∧ opDiv (opMul c d) d ≠ Exec.value c := by
  have key : opDiv (opMul a b) b = Exec.value a := by
    obtain ⟨x⟩ := a
    obtain ⟨y⟩ := b
    have hx : -9223372036854775808 ≤ x ∧ x < 9223372036854775808 := ha
    have hy : y ≠ 0 := hb
    have hxy : IsInt64 (x * y) := hab
    simp only [opDiv, opDivAssign, opMul, opMulAssign, newCopy, setTimestampCopy, getTimestamp]
    rw [toInt64_of_isInt64 _ hxy, if_neg hy, if_neg, Int.mul_tdiv_cancel x hy]
    rintro ⟨h1, h2⟩
    subst h2
    omega
  refine ⟨key, ?_, ⟨4611686018427387904⟩, ⟨4⟩, by decide, by decide, by decide, by decide,
    by decide⟩
  rw [key]
  simp [Exec.map, opEq, getTimestamp]

/-- Witness of C20 at `a = -3037000499`, `b = 3037000499` (the product is just inside the
64-bit range). -/
theorem C20_mul_then_div_witness :
    opDiv (opMul ⟨-3037000499⟩ ⟨3037000499⟩) ⟨3037000499⟩ = Exec.value ⟨-3037000499⟩ :=
  (C20_mul_then_div ⟨-3037000499⟩ ⟨3037000499⟩ (by decide) (by decide) (by decide)).1

/-! ## Printing -/

/-- The byte holding a decimal digit. -/
theorem toByte_digit (n : Nat) (h : n < 9223372036854775808) (hpos : 0 < n) :
    toByte (toUInt64 (toUInt64 (n : Int)
      - toUInt64 (toUInt64 (Int.tdiv (n : Int) 10) * 10))) = toByte ((n % 10 : Nat) : Int) := by
  have hq : Int.tdiv (n : Int) 10 = (n : Int) / 10 :=
    Int.tdiv_eq_ediv (by omega) (by norm_num)
  rw [hq]
  unfold toUInt64
  congr 1
  omega

theorem printExtract_digits (room : Nat) :
    ∀ (n : Nat) (buf : List byte), n < 9223372036854775808 →
      (Nat.digits 10 n).length ≤ room →
      printExtract room (n : Int) buf
        = Exec.value (buf ++ (Nat.digits 10 n).map (fun d => toByte ((d : Nat) : Int))) := by
  induction room with
  | zero =>
    intro n buf _ hlen
    have hn : n = 0 := by
      rcases Nat.eq_zero_or_pos n with h | h
      · exact h
      · have := Nat.digits_def' (by norm_num : 1 < 10) h
        rw [this] at hlen
        simp at hlen
    subst hn
    simp [printExtract]
  | succ room ih =>
    intro n buf hn hlen
    rcases Nat.eq_zero_or_pos n with h | h
    · subst h
      simp [printExtract]
    · have hd := Nat.digits_def' (by norm_num : 1 < 10) h
      rw [hd] at hlen ⊢
      have hpos : (0 : Int) < (n : Int) := by exact_mod_cast h
      have hq : toInt64 (toUInt64 (Int.tdiv (n : Int) 10)) = ((n / 10 : Nat) : Int) := by
        have hq1 : Int.tdiv (n : Int) 10 = (n : Int) / 10 :=
          Int.tdiv_eq_ediv (by omega) (by norm_num)
        rw [hq1]
        unfold toInt64 toUInt64
        push_cast
        omega
      show (if (0 : Int) < (n : Int) then _ else _) = _
      rw [if_pos hpos, hq, toByte_digit n hn h, ih (n / 10) _ (by omega) (by simpa using hlen)]
      simp

theorem printEmit_take (buf : List byte) :
    ∀ (i : Nat) (out : List Char), i ≤ buf.length →
      printEmit buf i out = out ++ ((buf.take i).reverse.map printChar) := by
  intro i
  induction i with
  | zero => intro out _; simp [printEmit]
  | succ i ih =>
    intro out hi
    have hlt : i < buf.length := hi
    have ht : buf.take (i + 1) = buf.take i ++ [buf[i]] := by
      rw [List.take_succ, List.getElem?_eq_getElem hlt]
      rfl
    have hg : buf.getD i 0 = buf[i] := by
      simp [List.getD, List.getElem?_eq_getElem hlt]
    show printEmit buf i (Serial.print out (printChar (buf.getD i 0))) = _
    rw [ih _ (Nat.le_of_lt hlt), ht, hg, List.reverse_append, List.map_append]
    simp [Serial.print]

theorem printChar_digit (d : Nat) (h : d < 10) :
    printChar (toByte ((d : Nat) : Int)) = Nat.digitChar d := by
  interval_cases d <;> rfl


/-- The decimal digits of core, most significant first, are those of `Nat.digits` reversed. -/
theorem toDigitsCore_eq (fuel : Nat) :
    ∀ (n : Nat) (ds : List Char), 0 < n → n < fuel →
      Nat.toDigitsCore 10 fuel n ds = (Nat.digits 10 n).reverse.map Nat.digitChar ++ ds := by
  induction fuel with
  | zero => intro n ds _ h; omega
  | succ fuel ih =>
    intro n ds hpos hlt
    have hd := Nat.digits_def' (by norm_num : 1 < 10) hpos
    rw [hd]
    unfold Nat.toDigitsCore
    by_cases hq : n / 10 = 0
    · simp [hq]
    · simp only [hq, if_false]
      rw [ih (n / 10) _ (Nat.pos_of_ne_zero hq) (by omega)]
      simp

theorem toDigits_eq (n : Nat) (hpos : 0 < n) :
    Nat.toDigits 10 n = (Nat.digits 10 n).reverse.map Nat.digitChar := by
  unfold Nat.toDigits
  rw [toDigitsCore_eq (n + 1) n [] hpos (by omega)]
  simp

theorem digits_length_le_19 (n : Nat) (h : n < 9223372036854775808) :
    (Nat.digits 10 n).length ≤ 19 := by
  rcases Nat.eq_zero_or_pos n with h0 | h0
  · subst h0
    simp
  · by_contra hc
    have h20 : 20 ≤ (Nat.digits 10 n).length := by omega
    have h1 := Nat.base_pow_length_digits_le 10 n (by norm_num) (by omega)
    have h2 : 10 ^ 20 ≤ 10 ^ (Nat.digits 10 n).length :=
      Nat.pow_le_pow_right (by norm_num) h20
    norm_num at h2
    omega

/-- The output of `print` for a positive 64-bit value. -/
theorem print_pos (n : Nat) (hpos : 0 < n) (h : n < 9223372036854775808) (out : List Char) :
    print ⟨(n : Int)⟩ out
      = Exec.value (out ++ Nat.toDigits 10 n ++ [Char.ofNat 13, Char.ofNat 10]) := by
  have hne : ((n : Int)) ≠ 0 := by omega
  have hlen := digits_length_le_19 n h
  unfold print
  simp only
  rw [if_neg hne, printExtract_digits 64 n [] h (by omega)]
  simp only [Exec.map, List.nil_append]
  rw [printEmit_take _ _ _ (le_refl _), List.take_length, toDigits_eq n hpos]
  simp only [Serial.println, List.map_reverse, List.map_map]
  congr 4
  apply List.map_congr_left
  intro d hd
  exact printChar_digit d (Nat.digits_lt_base (by norm_num) hd)

theorem digitChar_eq (d : Nat) (h : d < 10) : Nat.digitChar d = Char.ofNat (48 + d) := by
  interval_cases d <;> rfl

/-- C17: for every 64-bit `ticks > 0`, `print()` appends to the serial output exactly the
decimal digits of `ticks` (the text `Nat.repr` gives), most significant first, then the line
break of `Serial.println()`, and nothing else; the digits are `'0'..'9'`, the first one is
not `'0'`, and at most 19 of the 64 bytes of the buffer are used. -/
theorem C17_print_positive (x : DW1000Time) (hpos : 0 < x._timestamp)
    (h64 : IsInt64 x._timestamp) (out : List Char) :
    print x out = Exec.value
        (out ++ Nat.toDigits 10 x._timestamp.toNat ++ [Char.ofNat 13, Char.ofNat 10])
      ∧ (Nat.toDigits 10 x._timestamp.toNat).asString = Nat.repr x._timestamp.toNat
      ∧ Nat.toDigits 10 x._timestamp.toNat
          = (Nat.digits 10 x._timestamp.toNat).reverse.map (fun d => Char.ofNat (48 + d))
      ∧ (∀ d ∈ Nat.digits 10 x._timestamp.toNat, d < 10)
      ∧ (∀ hne : Nat.digits 10 x._timestamp.toNat ≠ [],
          (Nat.digits 10 x._timestamp.toNat).getLast hne ≠ 0)
      ∧ Nat.digits 10 x._timestamp.toNat ≠ []
      ∧ ((Nat.ofDigits 10 (Nat.digits 10 x._timestamp.toNat) : Nat) : Int) = x._timestamp
      ∧ (Nat.digits 10 x._timestamp.toNat).length ≤ 19 := by
  obtain ⟨t⟩ := x
  have ht0 : 0 < t := hpos
  have ht1 : -9223372036854775808 ≤ t ∧ t < 9223372036854775808 := h64
  obtain ⟨n, rfl⟩ : ∃ n : Nat, t = (n : Int) := ⟨t.toNat, by omega⟩
  have hn0 : 0 < n := by omega
  have hn1 : n < 9223372036854775808 := by omega
  have hne0 : n ≠ 0 := by omega
  simp only [Int.toNat_ofNat]
  refine ⟨print_pos n hn0 hn1 out, rfl, ?_, ?_, ?_, ?_, ?_, digits_length_le_19 n hn1⟩
  · rw [toDigits_eq n hn0]
    apply List.map_congr_left
    intro d hd
    exact digitChar_eq d (Nat.digits_lt_base (by norm_num) (List.mem_reverse.1 hd))
  · intro d hd
    exact Nat.digits_lt_base (by norm_num) hd
  · intro hne
    exact Nat.getLast_digit_ne_zero 10 hne0
  · exact Nat.digits_ne_nil_iff_ne_zero.2 hne0
  · rw [Nat.ofDigits_digits]

/-- Witness of C17 at `ticks = 1099511627776`, with the text `t=` already written. -/
theorem C17_print_positive_witness :
    print ⟨1099511627776⟩ ['t', '=']
      = Exec.value ['t', '=', '1', '0', '9', '9', '5', '1', '1', '6', '2', '7', '7', '7', '6',
          Char.ofNat 13, Char.ofNat 10] :=
  (C17_print_positive ⟨1099511627776⟩ (by decide) (by decide) ['t', '=']).1

/-- C18: for `ticks == 0`, `print()` writes the digit `'0'` and returns before
`Serial.println()`: the output is `0` with no line break, whereas every positive value
(here 7) is followed by the line break. -/
theorem C18_print_zero_no_line_break (out : List Char) :
    print DW1000Time.new out = Exec.value (out ++ ['0'])
      ∧ print DW1000Time.new [] ≠ Exec.value ['0', Char.ofNat 13, Char.ofNat 10]
      ∧ print ⟨7⟩ [] = Exec.value ['7', Char.ofNat 13, Char.ofNat 10] := by
  refine ⟨rfl, by decide, by decide⟩

/-! ## Floating-point operators -/

/-- Evaluation of `toDouble` in the normal range, from the binary exponent and the rounded
significand. -/
theorem toDouble_eq (q : ℚ) (e m : Int) (h0 : q ≠ 0) (h1 : (2 : ℚ) ^ e ≤ |q|)
    (h2 : |q| < (2 : ℚ) ^ (e + 1)) (he : -1022 ≤ e)
    (hm : roundHalfEven (q / (2 : ℚ) ^ (e - 52)) = m) :
    toDouble q = m * (2 : ℚ) ^ (e - 52) := by
  have hl : Int.log 2 |q| = e := log2_eq _ _ (abs_pos.2 h0) h1 h2
  unfold toDouble
  rw [if_neg h0, hl, max_eq_left he, hm]

theorem roundHalfEven_intCast (z : Int) : roundHalfEven (z : ℚ) = z :=
  roundHalfEven_eq_of_lt _ _ (le_refl _) (by linarith)

theorem FloatVal.round_eq (q v : ℚ) (h : toFloat q = v) (hb : |v| < 2 ^ 128) :
    FloatVal.round q = FloatVal.finite v := by
  unfold FloatVal.round
  rw [h, if_pos hb]

theorem toFloat_41 : toFloat 41 = 41 := by
  rw [toFloat_eq 41 5 10747904 (by norm_num) (by norm_num [abs_of_pos])
    (by norm_num [abs_of_pos]) (by norm_num)
    (by apply roundHalfEven_eq_of_lt <;> norm_num)]
  norm_num

theorem toFloat_recip_41 : toFloat (1 / 41) = 13094412 / 536870912 := by
  rw [toFloat_eq (1 / 41) (-6) 13094412 (by norm_num) (by norm_num [abs_of_pos])
    (by norm_num [abs_of_pos]) (by norm_num)
    (by apply roundHalfEven_eq_of_lt <;> norm_num)]
  norm_num

theorem toFloat_41_mul_recip : toFloat (41 * (13094412 / 536870912)) = 16777215 / 16777216 := by
  rw [toFloat_eq (41 * (13094412 / 536870912)) (-1) 16777215 (by norm_num)
    (by norm_num [abs_of_pos]) (by norm_num [abs_of_pos]) (by norm_num)
    (by apply roundHalfEven_eq_of_lt <;> norm_num)]
  norm_num

/-- The quotient `41 / 41.0f` computed by the code is `0`: the reciprocal is rounded down
and the product stays below one. -/
theorem opDivFloat_41 : opDivFloat ⟨41⟩ (FloatVal.finite 41) = Exec.value ⟨0⟩ := by
  have h1 : FloatVal.ofInt64 41 = FloatVal.finite 41 := by
    unfold FloatVal.ofInt64
    exact FloatVal.round_eq _ _ (by exact_mod_cast toFloat_41) (by norm_num [abs_of_pos])
  have h2 : FloatVal.div (FloatVal.finite 1) (FloatVal.finite 41)
      = FloatVal.finite (13094412 / 536870912) := by
    have h : FloatVal.div (FloatVal.finite 1) (FloatVal.finite 41)
        = FloatVal.round (1 / 41) := by
      simp [FloatVal.div]
    rw [h]
    exact FloatVal.round_eq _ _ toFloat_recip_41 (by norm_num [abs_of_pos])
  have h3 : FloatVal.mul (FloatVal.finite 41) (FloatVal.finite (13094412 / 536870912))
      = FloatVal.finite (16777215 / 16777216) :=
    FloatVal.round_eq _ _ toFloat_41_mul_recip (by norm_num [abs_of_pos])
  have h4 : truncate (16777215 / 16777216) = 0 := by
    apply truncate_eq_of_nonneg <;> norm_num
  simp only [opDivFloat, opDivAssignFloat, newCopy, setTimestampCopy, getTimestamp]
  rw [h1, h2, h3]
  simp only [FloatVal.toInt64, castInt64]
  rw [h4, if_pos (by decide)]
  rfl

/-- C11: for every object `a` and every `float` factor (zero, infinities and NaN included),
`a / factor` yields exactly what scaling `a` by the reciprocal `1.0f/factor` yields: the
conversion to `long long int` of the `float` product of `(float)a.ticks` and the
reciprocal, truncated toward zero. The reciprocal is computed and rounded first, so
`41 / 41.0f` gives `0`. -/
theorem C11_div_float_is_scale_by_reciprocal (a : DW1000Time) (factor : FloatVal) :
    opDivFloat a factor = specDivByScale a factor
      ∧ opDivAssignFloat a factor
          = opMulAssignFloat a (FloatVal.div (FloatVal.finite 1) factor)
      ∧ (∀ p : ℚ,
          FloatVal.mul (FloatVal.ofInt64 a._timestamp)
              (FloatVal.div (FloatVal.finite 1) factor) = FloatVal.finite p →
          IsInt64 (truncate p) → opDivFloat a factor = Exec.value ⟨truncate p⟩)
      ∧ opDivFloat ⟨41⟩ (FloatVal.finite 41) = Exec.value ⟨0⟩ := by
  refine ⟨rfl, rfl, ?_, opDivFloat_41⟩
  intro p hp hr
  simp only [opDivFloat, opDivAssignFloat, newCopy, setTimestampCopy, getTimestamp]
  rw [hp]
  simp only [FloatVal.toInt64, castInt64]
  rw [if_pos hr]
  rfl

/-! ## Distance -/

/-- The `float` nearest to the metres per tick is `10075486 * 2^-31`. -/
theorem DISTANCE_OF_RADIO_eq : DISTANCE_OF_RADIO = 5037743 / 1073741824 := by
  unfold DISTANCE_OF_RADIO
  rw [toFloat_eq (299792458 / (499200000 * 128)) (-8) 10075486 (by norm_num)
    (by norm_num [abs_of_pos]) (by norm_num [abs_of_pos]) (by norm_num)
    (by apply roundHalfEven_eq_of_lt <;> norm_num)]
  norm_num

theorem toFloat_213 : toFloat 213 = 213 := by
  rw [toFloat_eq 213 7 13959168 (by norm_num) (by norm_num [abs_of_pos])
    (by norm_num [abs_of_pos]) (by norm_num)
    (by apply roundHalfEven_eq_of_lt <;> norm_num)]
  norm_num

theorem toFloat_pow40 : toFloat 1099511627776 = 1099511627776 := by
  rw [toFloat_eq 1099511627776 40 8388608 (by norm_num) (by norm_num [abs_of_pos])
    (by norm_num [abs_of_pos]) (by norm_num)
    (by apply roundHalfEven_eq_of_lt <;> norm_num)]
  norm_num

theorem toFloat_metres_per_tick : toFloat (5037743 / 1073741824) = 5037743 / 1073741824 := by
  rw [toFloat_eq (5037743 / 1073741824) (-8) 10075486 (by norm_num)
    (by norm_num [abs_of_pos]) (by norm_num [abs_of_pos]) (by norm_num)
    (by apply roundHalfEven_eq_of_lt <;> norm_num)]
  norm_num

theorem toFloat_213_metres :
    toFloat (213 * (5037743 / 1073741824)) = 8383119 / 8388608 := by
  rw [toFloat_eq (213 * (5037743 / 1073741824)) (-1) 16766238 (by norm_num)
    (by norm_num [abs_of_pos]) (by norm_num [abs_of_pos]) (by norm_num)
    (by apply roundHalfEven_eq_of_lt <;> norm_num)]
  norm_num

theorem toFloat_one_metre : toFloat (8383119 / 8388608) = 8383119 / 8388608 := by
  rw [toFloat_eq (8383119 / 8388608) (-1) 16766238 (by norm_num)
    (by norm_num [abs_of_pos]) (by norm_num [abs_of_pos]) (by norm_num)
    (by apply roundHalfEven_eq_of_lt <;> norm_num)]
  norm_num

theorem toDouble_213 : toDouble 213 = 213 := by
  rw [toDouble_eq 213 7 7494271254921216 (by norm_num) (by norm_num [abs_of_pos])
    (by norm_num [abs_of_pos]) (by norm_num)
    (by apply roundHalfEven_eq_of_lt <;> norm_num)]
  norm_num

theorem toDouble_pow40 : toDouble 1099511627776 = 1099511627776 := by
  rw [toDouble_eq 1099511627776 40 4503599627370496 (by norm_num) (by norm_num [abs_of_pos])
    (by norm_num [abs_of_pos]) (by norm_num)
    (by apply roundHalfEven_eq_of_lt <;> norm_num)]
  norm_num

theorem toDouble_metres_per_tick :
    toDouble (5037743 / 1073741824) = 5037743 / 1073741824 := by
  rw [toDouble_eq (5037743 / 1073741824) (-8) 5409235357663232 (by norm_num)
    (by norm_num [abs_of_pos]) (by norm_num [abs_of_pos]) (by norm_num)
    (by apply roundHalfEven_eq_of_lt <;> norm_num)]
  norm_num

theorem toDouble_213_metres :
    toDouble (213 * (5037743 / 1073741824)) = 213 * (5037743 / 1073741824) := by
  rw [toDouble_eq (213 * (5037743 / 1073741824)) (-1) 9001305712361472 (by norm_num)
    (by norm_num [abs_of_pos]) (by norm_num [abs_of_pos]) (by norm_num)
    (by apply roundHalfEven_eq_of_lt <;> norm_num)]
  norm_num

theorem fmod_213 : fmod 213 1099511627776 = 213 := by
  have h : truncate (213 / 1099511627776) = 0 := by
    apply truncate_eq_of_nonneg <;> norm_num
  unfold fmod
  rw [h]
  norm_num

theorem getAsMeters_float_213 : getAsMeters toFloat ⟨213⟩ = 8383119 / 8388608 := by
  unfold getAsMeters TIME_OVERFLOW
  rw [DISTANCE_OF_RADIO_eq]
  push_cast
  rw [toFloat_213, toFloat_213, toFloat_pow40, fmod_213, toFloat_metres_per_tick,
    toFloat_213_metres, toFloat_one_metre]

theorem getAsMeters_double_213 : getAsMeters toDouble ⟨213⟩ = 8383119 / 8388608 := by
  unfold getAsMeters TIME_OVERFLOW
  rw [DISTANCE_OF_RADIO_eq]
  push_cast
  rw [toFloat_213, toDouble_213, toDouble_pow40, fmod_213, toDouble_metres_per_tick,
    toDouble_213_metres, toFloat_213_metres]

/-- C13: with `DISTANCE_OF_RADIO` the metres per tick of the 499.2 MHz x 128 clock,
`round(1.0 / DISTANCE_OF_RADIO)` is 213 ticks, and `getAsMeters()` of an object holding 213
ticks is `0.99934...`, within `1e-3` of `1.0`, whether `double` has 32 or 64 bits. -/
theorem C13_one_metre_within_tolerance :
    round ((1 : ℚ) / DISTANCE_OF_RADIO) = 213
      ∧ round ((1 : ℚ) / (299792458 / (499200000 * 128))) = 213
      ∧ getAsMeters toFloat ⟨213⟩ = 8383119 / 8388608
      ∧ getAsMeters toDouble ⟨213⟩ = 8383119 / 8388608
      ∧ |getAsMeters toFloat ⟨213⟩ - 1| < 1 / 1000
      ∧ |getAsMeters toDouble ⟨213⟩ - 1| < 1 / 1000 := by
  refine ⟨?_, ?_, getAsMeters_float_213, getAsMeters_double_213, ?_, ?_⟩
  · rw [DISTANCE_OF_RADIO_eq, round_eq]
    exact Int.floor_eq_iff.2 ⟨by norm_num, by norm_num⟩
  · rw [round_eq]
    exact Int.floor_eq_iff.2 ⟨by norm_num, by norm_num⟩
  · rw [getAsMeters_float_213, abs_lt]
    constructor <;> norm_num
  · rw [getAsMeters_double_213, abs_lt]
    constructor <;> norm_num

end DW1000
